import Mathlib

/-!
Verification of the geometry and attribute-resolution core of
`paths2openscad.py` (an Inkscape extension emitting OpenSCAD programs).

The development shallowly embeds the program's core functions:

* the point/bbox/polygon containment tests (`pointInBBox`, `bboxInBBox`,
  `pointInPoly`, `polyInPoly`, source lines 173-286),
* the iterative cubic-Bezier flattener `subdivideCubicPath` (lines 289-323),
  parametrised over the external `cspsubdiv.maxdist` and
  `bezmisc.beziersplitatt` collaborators,
* the extrusion-attribute resolver `object_merge_extrusion_values`
  (lines 671-706) together with hand-translated matchers for the module's
  regular expressions (lines 109-112),
* the per-element emission of `convertPath` (lines 708-863), modelled as a
  structured declaration stream,
* the SVG traversal `recursivelyTraverseSvg` (lines 865-1152) over an
  abstract node tree, and the two-phase pipeline of `effect`
  (lines 1175-1254).

Coordinates are embedded as rationals (the source uses Python floats; all
claims under test are exact-arithmetic properties).  Python code paths that
raise `IndexError` (point-in-polygon on polygons with fewer than two
vertices) are modelled by `Option`, `none` standing for the raised
exception.
-/

namespace P2S

/-- A 2D point, `[x, y]` in the source. -/
abbrev Pt := ℚ × ℚ

/-- A bounding box `[xmin, xmax, ymin, ymax]` (source order of the list). -/
structure BBox where
  xmin : ℚ
  xmax : ℚ
  ymin : ℚ
  ymax : ℚ

deriving instance DecidableEq, Repr for BBox

/-- `pointInBBox(pt, bbox)`, source lines 173-183: the point lies on or
within the bounding box. -/
def pointInBBox (pt : Pt) (bbox : BBox) : Bool :=
  if pt.1 < bbox.xmin ∨ pt.1 > bbox.xmax ∨ pt.2 < bbox.ymin ∨ pt.2 > bbox.ymax then
    false
  else
    true

/-- `bboxInBBox(bbox1, bbox2)`, source lines 186-203: `bbox1` lies on or
within `bbox2` (non-strict inequalities on all four bounds). -/
def bboxInBBox (bbox1 bbox2 : BBox) : Bool :=
  if bbox1.xmin < bbox2.xmin ∨ bbox1.xmax > bbox2.xmax ∨
      bbox1.ymin < bbox2.ymin ∨ bbox1.ymax > bbox2.ymax then
    false
  else
    true

/-- The per-pair condition of the horizontal-edge special case in
`pointInPoly`, source line 235. -/
def horizEdgeHit (x y : ℚ) (p1 p2 : Pt) : Bool :=
  decide (y = p1.2 ∧ p1.2 = p2.2 ∧ x > min p1.1 p2.1 ∧ x < max p1.1 p2.1)

/-- The vertex pairs scanned by the horizontal-edge loop, source
lines 229-236: the iteration `i = 0` re-checks the initial pair
`(poly[0], poly[1])`, the iterations `i = 1 .. n-1` check the consecutive
pairs `(poly[i-1], poly[i])`.  The implicit closing edge from the last
vertex back to the first is NOT scanned by this loop.  On a polygon with
fewer than two vertices the source raises `IndexError` at `poly[1]`;
`pointInPoly` below returns `none` for that case before using this list. -/
def horizPairs : List Pt → List (Pt × Pt)
  | p0 :: p1 :: rest => (p0, p1) :: List.zip (p0 :: p1 :: rest) (p1 :: rest)
  | _ => []

/-- The edge list walked by the ray-casting loop, source lines 238-253:
`p1` starts at `poly[0]` and `p2` runs through `poly[i % n]` for
`i = 0 .. n`, so the pairs are the degenerate `(poly[0], poly[0])`
(iteration `i = 0`, a no-op in `rayStep`), all consecutive pairs, and the
closing pair `(poly[n-1], poly[0])`. -/
def rayEdges : List Pt → List (Pt × Pt)
  | [] => []
  | p :: rest => (p, p) :: List.zip (p :: rest) (rest ++ [p])

/-- One iteration of the ray-casting loop of `pointInPoly`, source
lines 242-253 (the nested `if` structure is kept). -/
def rayStep (x y : ℚ) (inside : Bool) (e : Pt × Pt) : Bool :=
  if y > min e.1.2 e.2.2 then
    if y ≤ max e.1.2 e.2.2 then
      if x ≤ max e.1.1 e.2.1 then
        if e.1.2 ≠ e.2.2 then
          if x ≤ e.1.1 + (y - e.1.2) * (e.2.1 - e.1.1) / (e.2.2 - e.1.2) then
            !inside
          else
            inside
        else
          !inside
      else
        inside
    else
      inside
  else
    inside

/-- The body of `pointInPoly` after the bounding-box rejection, source
lines 221-255: vertex test, horizontal-edge special case, then ray
casting.  `none` models the `IndexError` the source raises on a polygon
with fewer than two vertices (reached only when the point is not a
vertex). -/
def pointInPolyNoBB (p : Pt) (poly : List Pt) : Option Bool :=
  if p ∈ poly then some true
  else
    match poly with
    | _ :: _ :: _ =>
        if (horizPairs poly).any (fun e => horizEdgeHit p.1 p.2 e.1 e.2) then some true
        else some ((rayEdges poly).foldl (rayStep p.1 p.2) false)
    | _ => none

/-- `pointInPoly(p, poly, bbox)`, source lines 206-255.  The `p is None` /
`poly is None` guards cannot arise in the embedding (arguments are always
values). -/
def pointInPoly (p : Pt) (poly : List Pt) (bbox : Option BBox) : Option Bool :=
  match bbox with
  | some b => if pointInBBox p b then pointInPolyNoBB p poly else some false
  | none => pointInPolyNoBB p poly

/-- The `for p in poly1` loop of `polyInPoly`, source lines 280-282: each
vertex of `poly1` must be classified inside-or-on `poly2`; a `none`
(raised exception) propagates. -/
def allInPoly (poly1 poly2 : List Pt) (bbox2 : Option BBox) : Option Bool :=
  match poly1 with
  | [] => some true
  | p :: rest =>
      match pointInPoly p poly2 bbox2 with
      | none => none
      | some false => some false
      | some true => allInPoly rest poly2 bbox2

/-- `polyInPoly(poly1, bbox1, poly2, bbox2)`, source lines 258-286: does
`poly2` contain `poly1`?  The bounding-box rejection runs only when both
boxes are supplied. -/
def polyInPoly (poly1 : List Pt) (bbox1 : Option BBox)
    (poly2 : List Pt) (bbox2 : Option BBox) : Option Bool :=
  match bbox1, bbox2 with
  | some b1, some b2 =>
      if bboxInBBox b1 b2 then allInPoly poly1 poly2 bbox2 else some false
  | _, _ => allInPoly poly1 poly2 bbox2

/-- Concrete square used by witnesses and counterexamples. -/
def sqA : List Pt := [(0, 0), (2, 0), (2, 2), (0, 2)]

/-- `sqA` listed so that its horizontal bottom edge is the implicit
closing edge (last vertex back to first). -/
def sqClosing : List Pt := [(0, 0), (0, 2), (2, 2), (2, 0)]

/-- `sqA` with one extra vertex `(1,1)` notching the top edge inward: a
genuinely different region with the same bounding box. -/
def sqNotch : List Pt := [(0, 0), (2, 0), (2, 2), (1, 1), (0, 2)]

/-- Bounding box of `sqA`, `sqClosing` and `sqNotch`. -/
def sqBB : BBox := ⟨0, 2, 0, 2⟩

/-- One node of a cubic super-path subpath: the triple
`[ctrl-in, anchor, ctrl-out]` (indices `[0]`, `[1]`, `[2]` in the
source). -/
structure CNode where
  c0 : Pt
  c1 : Pt
  c2 : Pt

deriving instance DecidableEq, Repr for CNode

/-- A cubic Bezier segment: four control points. -/
structure Bez where
  p0 : Pt
  p1 : Pt
  p2 : Pt
  p3 : Pt

deriving instance DecidableEq, Repr for Bez

/-- Dummy node for out-of-range indexing (never reached on the in-range
accesses the source performs). -/
def cnode0 : CNode := ⟨(0, 0), (0, 0), (0, 0)⟩

def nodeAt (sp : List CNode) (k : Nat) : CNode := (sp[k]?).getD cnode0

/-- The 4-control-point segment between nodes `i-1` and `i`, source
lines 307-312: `b = (sp[i-1][1], sp[i-1][2], sp[i][0], sp[i][1])`. -/
def bezAt (sp : List CNode) (i : Nat) : Bez :=
  ⟨(nodeAt sp (i - 1)).c1, (nodeAt sp (i - 1)).c2, (nodeAt sp i).c0, (nodeAt sp i).c1⟩

/-- The in-place surgery after `one, two = beziersplitatt(b, 0.5)`,
source lines 319-323: `sp[i-1][2] = one[1]`, `sp[i][0] = two[2]`, and the
slice assignment `sp[i:1] = [[one[2], one[3], two[1]]]`, which for the
reachable indices `i ≥ 1` inserts the new node at position `i`. -/
def splitStep (one two : Bez) (sp : List CNode) (i : Nat) : List CNode :=
  let sp1 := sp.set (i - 1) { nodeAt sp (i - 1) with c2 := one.p1 }
  let sp2 := sp1.set i { nodeAt sp1 i with c0 := two.p2 }
  sp2.take i ++ CNode.mk one.p2 one.p3 two.p1 :: sp2.drop i

/-- `subdivideCubicPath(sp, flat, i=1)`, source lines 289-323.  The
external collaborators `cspsubdiv.maxdist` (deviation metric of a
4-control-point segment) and `bezmisc.beziersplitatt` (exact subdivision
at `t = 0.5`) are inkscape library code, not part of this repository;
they are taken as the parameters `maxd` and `split`.  The unbounded
`while` loops are modelled with `fuel`; `none` stands for running out of
fuel (the source can loop forever, e.g. for `flat ≤ 0`). -/
def subdivideCubicPath (maxd : Bez → ℚ) (split : Bez → Bez × Bez) (flat : ℚ) :
    Nat → List CNode → Nat → Option (List CNode)
  | 0, _, _ => none
  | fuel + 1, sp, i =>
      if sp.length ≤ i then some sp
      else if maxd (bezAt sp i) > flat then
        subdivideCubicPath maxd split flat fuel
          (splitStep (split (bezAt sp i)).1 (split (bezAt sp i)).2 sp i) i
      else
        subdivideCubicPath maxd split flat fuel sp (i + 1)

/-- Constant-zero deviation metric used by the C3 witness. -/
def maxdW : Bez → ℚ := fun _ => 0

/-- Trivial splitter used by the C3 witness. -/
def splitW : Bez → Bez × Bez := fun b => (b, b)

/-- Two-node super-path used by the C3 witness. -/
def spW : List CNode := [⟨(0, 0), (0, 0), (0, 0)⟩, ⟨(1, 1), (1, 1), (1, 1)⟩]

/-- Characters of the regex class `\s`. -/
def isSpaceChar (c : Char) : Bool :=
  c == ' ' || c == '\t' || c == '\n' || c == '\r' || c == '\x0b' || c == '\x0c'

/-- The tail `_+([aA]?\d+(?:[_\.]\d+)?)_*mm$` of
`RE_AUTO_HEIGHT_ID = r".*?_+([aA]?\d+(?:[_\.]\d+)?)_*mm$"` (source
line 109), matched at the position where the lazy `.*?` stopped; returns
the captured group.  Backtracking is resolved deterministically, exactly
as the regex engine does on this pattern: `_+` necessarily consumes the
whole underscore run (the group must start with `a`/`A`/digit), `\d+`
never gives digits back (nothing that follows matches a digit), `[aA]?`
taken when present can only fail if no digit follows, in which case the
empty alternative fails too, and the optional `[_\.]\d+` prefers
presence with a fall-back to absence.  `$` is modelled as end of string
and `.` as any character (identifiers contain no newlines). -/
def matchIdTail (cs : List Char) : Option (List Char) :=
  match cs.takeWhile (· == '_') with
  | [] => none
  | _ :: _ =>
      let r1 := cs.dropWhile (· == '_')
      let aPart := (r1.take 1).filter (fun c => c == 'a' || c == 'A')
      let r2 := r1.drop aPart.length
      let d1 := r2.takeWhile Char.isDigit
      let r3 := r2.dropWhile Char.isDigit
      if d1.isEmpty then none
      else
        let finish := fun (grp r : List Char) =>
          if r.dropWhile (· == '_') == ['m', 'm'] then some grp else none
        match r3 with
        | c :: rest =>
            if c == '_' || c == '.' then
              match rest.takeWhile Char.isDigit with
              | [] => finish (aPart ++ d1) r3
              | d2 =>
                  match finish (aPart ++ d1 ++ c :: d2) (rest.dropWhile Char.isDigit) with
                  | some g => some g
                  | none => finish (aPart ++ d1) r3
            else finish (aPart ++ d1) r3
        | [] => finish (aPart ++ d1) r3

/-- The scan of `RE_AUTO_HEIGHT_ID`: the lazy `.*?` tries the shortest
prefix first, so the first position whose tail matches wins. -/
def firstIdGroup : List Char → Option (List Char)
  | [] => none
  | c :: rest =>
      match matchIdTail (c :: rest) with
      | some g => some g
      | none => firstIdGroup rest

/-- `RE_AUTO_HEIGHT_ID.findall(rawid)`: the pattern is anchored at the
end of the string, so `findall` yields at most one match; `height[-1]`
is therefore that single captured group. -/
def heightFromId (s : String) : Option (List Char) := firstIdGroup s.data

/-- `\d+(?:\.\d+)?`, captured verbatim; deterministic (see
`matchIdTail`): when `.` is not followed by a digit the optional part is
absent and the caller continues (and necessarily fails) from the dot. -/
def numToken (cs : List Char) : Option (List Char × List Char) :=
  let d1 := cs.takeWhile Char.isDigit
  let r1 := cs.dropWhile Char.isDigit
  if d1.isEmpty then none
  else
    match r1 with
    | '.' :: rest =>
        match rest.takeWhile Char.isDigit with
        | [] => some (d1, r1)
        | d2 => some (d1 ++ '.' :: d2, rest.dropWhile Char.isDigit)
    | _ => some (d1, r1)

/-- The ` ?mm$` tail shared by the height and raise description patterns
(` ?` is deterministic: if a space is present it must be consumed, since
the empty alternative would have to match `m` against the space). -/
def mmEnd (r : List Char) : Bool :=
  (match r with
    | ' ' :: rest => rest
    | _ => r) == ['m', 'm']

/-- Value part `\s*([aA]?\d+(?:\.\d+)?) ?mm$` of
`RE_AUTO_HEIGHT_DESC = r"^(?:ht|[Hh]eight):\s*([aA]?\d+(?:\.\d+)?) ?mm$"`
(source line 110), applied after the `(?:ht|[Hh]eight):` alternation. -/
def heightValueMatch (cs : List Char) : Option (List Char) :=
  let r0 := cs.dropWhile isSpaceChar
  let aPart := (r0.take 1).filter (fun c => c == 'a' || c == 'A')
  match numToken (r0.drop aPart.length) with
  | none => none
  | some (num, r1) => if mmEnd r1 then some (aPart ++ num) else none

/-- Value part
`\s*(\d+(?:\.\d+)?(?: ?, ?\d+(?:\.\d+)?)?) ?%$` of
`RE_AUTO_SCALE_DESC = r"^(?:sc|[Ss]cale):\s*(\d+(?:\.\d+)?(?: ?, ?\d+(?:\.\d+)?)?) ?%$"`
(source line 111).  The optional comma part prefers presence and falls
back to absence; the group captures the consumed characters verbatim
(including any spaces around the comma). -/
def scaleValueMatch (cs : List Char) : Option (List Char) :=
  let r0 := cs.dropWhile isSpaceChar
  match numToken r0 with
  | none => none
  | some (n1, r1) =>
      let finish := fun (grp r : List Char) =>
        if (match r with
            | ' ' :: rest => rest
            | _ => r) == ['%'] then some grp else none
      let present : Option (List Char × List Char) :=
        let sp1 : List Char := match r1 with
          | ' ' :: _ => [' ']
          | _ => []
        match r1.drop sp1.length with
        | ',' :: rb =>
            let sp2 : List Char := match rb with
              | ' ' :: _ => [' ']
              | _ => []
            match numToken (rb.drop sp2.length) with
            | some (n2, rd) => some (sp1 ++ ',' :: (sp2 ++ n2), rd)
            | none => none
        | _ => none
      match present with
      | some (chunk, rd) =>
          match finish (n1 ++ chunk) rd with
          | some g => some g
          | none => finish n1 r1
      | none => finish n1 r1

/-- Value part `\s*(\d+(?:\.\d+)?) ?mm$` of
`RE_AUTO_RAISE_DESC = r"^(?:[Rr]aise|[Oo]ffset):\s*(\d+(?:\.\d+)?) ?mm$"`
(source line 112). -/
def raiseValueMatch (cs : List Char) : Option (List Char) :=
  let r0 := cs.dropWhile isSpaceChar
  match numToken r0 with
  | none => none
  | some (num, r1) => if mmEnd r1 then some num else none

/-- Try a literal prefix followed by `:` and hand the remainder to the
value matcher. -/
def afterLiteral (pfx cs : List Char) (value : List Char → Option (List Char)) :
    Option (List Char) :=
  if cs.take (pfx.length + 1) == pfx ++ [':'] then value (cs.drop (pfx.length + 1))
  else none

/-- One line against `^(?:ht|[Hh]eight):...`; the two alternatives have
disjoint third characters (`ht:` vs `htight...` can never also start a
`[Hh]eight` match), so trying them in the regex's order is exact. -/
def lineHeightMatch (cs : List Char) : Option (List Char) :=
  match afterLiteral ['h', 't'] cs heightValueMatch with
  | some g => some g
  | none =>
      match afterLiteral ['H', 'e', 'i', 'g', 'h', 't'] cs heightValueMatch with
      | some g => some g
      | none => afterLiteral ['h', 'e', 'i', 'g', 'h', 't'] cs heightValueMatch

/-- One line against `^(?:sc|[Ss]cale):...`. -/
def lineScaleMatch (cs : List Char) : Option (List Char) :=
  match afterLiteral ['s', 'c'] cs scaleValueMatch with
  | some g => some g
  | none =>
      match afterLiteral ['S', 'c', 'a', 'l', 'e'] cs scaleValueMatch with
      | some g => some g
      | none => afterLiteral ['s', 'c', 'a', 'l', 'e'] cs scaleValueMatch

/-- One line against `^(?:[Rr]aise|[Oo]ffset):...`. -/
def lineRaiseMatch (cs : List Char) : Option (List Char) :=
  match afterLiteral ['R', 'a', 'i', 's', 'e'] cs raiseValueMatch with
  | some g => some g
  | none =>
      match afterLiteral ['r', 'a', 'i', 's', 'e'] cs raiseValueMatch with
      | some g => some g
      | none =>
          match afterLiteral ['O', 'f', 'f', 's', 'e', 't'] cs raiseValueMatch with
          | some g => some g
          | none => afterLiteral ['o', 'f', 'f', 's', 'e', 't'] cs raiseValueMatch

/-- Split into lines at `\n` (the anchors of the `re.MULTILINE` patterns
match at line boundaries; a `\s*` spanning a newline inside a single
match is not modelled — none of the description texts under test contain
one). -/
def splitLinesGo (cur : List Char) : List Char → List (List Char)
  | [] => [cur.reverse]
  | c :: rest =>
      if c == '\n' then cur.reverse :: splitLinesGo [] rest
      else splitLinesGo (c :: cur) rest

def splitLines (cs : List Char) : List (List Char) := splitLinesGo [] cs

/-- `findall` of a line-anchored multiline pattern: the matched groups in
line order. -/
def findallLines (m : List Char → Option (List Char)) (s : String) :
    List (List Char) :=
  (splitLines s.data).filterMap m

/-- The extrusion parameter record; initial value from `convertPath`,
source line 819: `{'height': 'h', 'raise': '0', 'scale': 100.0,
'neg': False}` (the float `100.0` is kept as its display string, which is
how it reaches the emitted call). -/
structure Extrusion where
  height : String
  raise : String
  scale : String
  neg : Bool

deriving instance DecidableEq, Repr for Extrusion

def extrusionInit : Extrusion :=
  { height := "h", raise := "0", scale := "100.0", neg := false }

/-- What `object_merge_extrusion_values` reads from one node:
`node.get('id', '')` and the text of its `desc` child, if any (the two
`DESC_TAGS` lookups are modelled as one optional description text). -/
structure NodeInfo where
  rawid : String
  desc : Option String

deriving instance DecidableEq, Repr for NodeInfo

/-- `extrusion['height'][0] in ('a', 'A')` (source line 703).  Every
height string the program stores is nonempty (the initial `'h'`; regex
captures start with `a`, `A` or a digit), so the empty case — where the
source would raise `IndexError` — is modelled as `false`. -/
def beginsWithA (s : String) : Bool :=
  match s.data with
  | [] => false
  | c :: _ => c == 'a' || c == 'A'

/-- The strip-check run at the end of every level of
`object_merge_extrusion_values`, source lines 703-705. -/
def stripNegStep (e : Extrusion) : Extrusion :=
  if beginsWithA e.height then
    { e with neg := true, height := String.mk (e.height.data.drop 1) }
  else e

/-- The identifier/description writes of one level of
`object_merge_extrusion_values`, source lines 682-702 (before that
level's strip-check): `RE_AUTO_HEIGHT_ID` on the id (with
`replace('_', '.')`, a single-character replacement, modelled as a
character map), then the description patterns — description overrides
identifier, later lines override earlier ones (`[-1]`). -/
def mergeWrites (e : Extrusion) (n : NodeInfo) : Extrusion :=
  let e1 := match heightFromId n.rawid with
    | some h =>
        { e with height := String.mk (h.map (fun c => if c == '_' then '.' else c)) }
    | none => e
  match n.desc with
  | none => e1
  | some d =>
      let e2 := match (findallLines lineHeightMatch d).getLast? with
        | some h => { e1 with height := String.mk h }
        | none => e1
      let e3 := match (findallLines lineScaleMatch d).getLast? with
        | some s =>
            { e2 with scale :=
                if s.contains (',') then "[" ++ String.mk s ++ "]" else String.mk s }
        | none => e2
      match (findallLines lineRaiseMatch d).getLast? with
      | some r => { e3 with raise := String.mk r }
      | none => e3

/-- One full level of `object_merge_extrusion_values`: the writes, then
the strip-check (source lines 682-705). -/
def mergeNode (e : Extrusion) (n : NodeInfo) : Extrusion :=
  stripNegStep (mergeWrites e n)

/-- `object_merge_extrusion_values(extrusion, node)`, source
lines 671-706.  The function recurses into the parent first whenever the
parent is an `svg:g` group, then applies its own level; hence it equals a
left fold of `mergeNode` over the chain of enclosing groups listed
root-most first, followed by the element itself. -/
def object_merge_extrusion_values (e : Extrusion) (chain : List NodeInfo) : Extrusion :=
  chain.foldl mergeNode e

/-- Whether some level of the walk resolves — after that level's
identifier/description writes, before its strip-check — a height
beginning with `a`/`A`. -/
def negTriggered (e : Extrusion) : List NodeInfo → Bool
  | [] => false
  | n :: rest => beginsWithA (mergeWrites e n).height || negTriggered (mergeNode e n) rest

/-- C2 fixture: element with identifier `part_10_5_mm`, no description. -/
def nodeIdOnly : NodeInfo := { rawid := "part_10_5_mm", desc := none }

/-- C2 fixture: same identifier, description line `height: 7mm`. -/
def nodeDesc7 : NodeInfo := { rawid := "part_10_5_mm", desc := some ("height: 7mm") }

/-- C2 fixture: same identifier, description line `height: a7mm`. -/
def nodeDescA7 : NodeInfo := { rawid := "part_10_5_mm", desc := some ("height: a7mm") }

/-- C7 fixture: enclosing group with an `a`-prefixed identifier height. -/
def nodeGroupA5 : NodeInfo := { rawid := "grp_a5_mm", desc := none }

/-- C7 fixture: element overriding the inherited height with a plain
value. -/
def nodePlain7 : NodeInfo := { rawid := "part_7_mm", desc := none }

/-! ## Containment maps and per-element emission (`convertPath`) -/

/-- One subpath as stored in `self.paths[node]`: the vertex list together
with its bounding box, source lines 605/651. -/
abbrev Subpath := List Pt × BBox

def dummySub : Subpath := ([], ⟨0, 0, 0, 0⟩)

def subPts (path : List Subpath) (k : Nat) : List Pt := (path.getD k dummySub).1

def subBB (path : List Subpath) (k : Nat) : BBox := (path.getD k dummySub).2

/-- The `contains` / `contained_by` arrays of `convertPath`, source
lines 714-715. -/
structure ContainMaps where
  contains : List (List Nat)
  containedBy : List (List Nat)

deriving instance DecidableEq, Repr for ContainMaps

def listAppendAt (l : List (List Nat)) (i : Nat) (x : Nat) : List (List Nat) :=
  l.set i (l.getD i [] ++ [x])

/-- The ordered pairs `(i, j)` with `i < j < n` visited by the nested
loops of source lines 717-718. -/
def pairIdx (n : Nat) : List (Nat × Nat) :=
  (List.range n).flatMap fun i =>
    (List.range n).filterMap fun j => if i < j then some (i, j) else none

/-- One iteration of the pair loop, source lines 719-728: `if` the later
subpath `j` is contained in `i`, record it; `elif` (evaluated only when
the first test returned `False`) the other way around.  A `none` from
`polyInPoly` (raised exception) aborts the whole computation. -/
def containStep (path : List Subpath) (st : ContainMaps) (ij : Nat × Nat) :
    Option ContainMaps :=
  match polyInPoly (subPts path ij.2) (some (subBB path ij.2))
      (subPts path ij.1) (some (subBB path ij.1)) with
  | none => none
  | some true =>
      some { contains := listAppendAt st.contains ij.1 ij.2,
             containedBy := listAppendAt st.containedBy ij.2 ij.1 }
  | some false =>
      match polyInPoly (subPts path ij.1) (some (subBB path ij.1))
          (subPts path ij.2) (some (subBB path ij.2)) with
      | none => none
      | some true =>
          some { contains := listAppendAt st.contains ij.2 ij.1,
                 containedBy := listAppendAt st.containedBy ij.1 ij.2 }
      | some false => some st

/-- The full containment computation of `convertPath`, source
lines 714-728. -/
def computeContainment (path : List Subpath) : Option ContainMaps :=
  (pairIdx path.length).foldlM (containStep path)
    { contains := List.replicate path.length [],
      containedBy := List.replicate path.length [] }

/-- The four extrusion bodies `msg_linear_extrude`,
`msg_linear_extrude_by_paths`, `msg_extrude_by_hull`,
`msg_extrude_by_hull_and_paths` (source lines 326-362). -/
inductive ExtrudeKind where
  | linear
  | linearPaths
  | hull
  | hullPaths

deriving instance DecidableEq, Repr for ExtrudeKind

/-- A structured view of one declaration `convertPath` writes: the
`<id>_<k>_center`, `<id>_<k>_points` and `<id>_<k>_paths` definitions of
the first loop (lines 760-810) and the extrusion block of the second loop
(lines 831-860); `k` is the running `prefix` counter.  (The `%f`
formatting to six decimals and the textual id are presentation and are
not modelled.) -/
inductive Decl where
  | center (k : Nat) (c : Pt)
  | points (k : Nat) (pts : List Pt)
  | pathsIdx (k : Nat) (idxs : List (List Nat))
  | extrude (k : Nat) (kind : ExtrudeKind)

deriving instance DecidableEq, Repr for Decl

/-- `(point[0] - self.cx, point[1] - self.cy)`, source lines 776
and 788. -/
def shiftPt (cx cy : ℚ) (p : Pt) : Pt := (p.1 - cx, p.2 - cy)

/-- The nested index lists of `polypaths`, source lines 791-802: the
outer subpath occupies indices `0 .. count-1`, then each contained
subpath `j` the next `len(path[j][0])` indices. -/
def nestedIdxGo (count : Nat) : List Nat → List (List Nat)
  | [] => []
  | len :: rest => List.range' count len :: nestedIdxGo (count + len) rest

/-- The declarations the first loop writes for one top-level subpath `i`
under prefix counter `k`, source lines 764-810: the center (bbox
midpoint, shifted), the shifted point list — own points followed by the
points of every contained subpath — and, when `contains[i]` is nonempty,
the nested path index lists. -/
def declsFor (path : List Subpath) (cs : List (List Nat)) (cx cy : ℚ)
    (k i : Nat) : List Decl :=
  let own := subPts path i
  let bb := subBB path i
  let c : Pt := ((bb.xmin + bb.xmax) / 2 - cx, (bb.ymin + bb.ymax) / 2 - cy)
  let contained := cs.getD i []
  if contained.isEmpty then
    [Decl.center k c, Decl.points k (own.map (shiftPt cx cy))]
  else
    [Decl.center k c,
     Decl.points k ((own ++ contained.flatMap (subPts path)).map (shiftPt cx cy)),
     Decl.pathsIdx k (List.range own.length ::
       nestedIdxGo own.length (contained.map fun j => (subPts path j).length))]

/-- The first emission loop of `convertPath`, source lines 759-810: walk
the subpath indices, skip any with nonempty `contained_by`, emit
`declsFor` for the rest while advancing the `prefix` counter. -/
def pointsGo (path : List Subpath) (cs cb : List (List Nat)) (cx cy : ℚ) :
    List Nat → Nat → List Decl
  | [], _ => []
  | i :: rest, k =>
      if (cb.getD i []).isEmpty then
        declsFor path cs cx cy k i ++ pointsGo path cs cb cx cy rest (k + 1)
      else
        pointsGo path cs cb cx cy rest k

/-- Which extrusion body the second loop chooses, source lines 841-857. -/
def extrudeKindFor (filled forceLine containsEmpty : Bool) : ExtrudeKind :=
  if filled && !forceLine then
    if containsEmpty then ExtrudeKind.linear else ExtrudeKind.linearPaths
  else
    if containsEmpty then ExtrudeKind.hull else ExtrudeKind.hullPaths

/-- The second emission loop of `convertPath`, source lines 831-860: same
skip of subpaths with nonempty `contained_by`, one extrusion block per
remaining subpath. -/
def extrudeGo (cs cb : List (List Nat)) (filled forceLine : Bool) :
    List Nat → Nat → List Decl
  | [], _ => []
  | i :: rest, k =>
      if (cb.getD i []).isEmpty then
        Decl.extrude k (extrudeKindFor filled forceLine (cs.getD i []).isEmpty) ::
          extrudeGo cs cb filled forceLine rest (k + 1)
      else
        extrudeGo cs cb filled forceLine rest k

/-- The input `convertPath` reads per element: the stored subpath list
(`self.paths[node]`) and the two style-derived facts it branches on,
source lines 745-750 (`fill == 'none'`; `stroke` absent or `'none'`). -/
structure PathEntry where
  subpaths : List Subpath
  fillNone : Bool
  strokeNone : Bool

deriving instance DecidableEq, Repr for PathEntry

/-- The declaration stream of `convertPath(node)`, source lines 708-863:
empty-path early return (line 709); containment computation (a raised
exception propagates as `none`); the fill-and-stroke-`none` warning
return (lines 750-752); then the two emission loops.  The extrusion
attribute merge and the call-list entry (lines 816-829) touch only the
call lists, not the per-element declarations, and are modelled separately
(`object_merge_extrusion_values`). -/
def convertPathDecls (e : PathEntry) (forceLine : Bool) (cx cy : ℚ) :
    Option (List Decl) :=
  if e.subpaths.isEmpty then some []
  else
    match computeContainment e.subpaths with
    | none => none
    | some maps =>
        let filled := !e.fillNone
        if !filled && e.strokeNone then some []
        else
          some (pointsGo e.subpaths maps.contains maps.containedBy cx cy
              (List.range e.subpaths.length) 0 ++
            extrudeGo maps.contains maps.containedBy filled forceLine
              (List.range e.subpaths.length) 0)

/-- The indices the emission loops do not skip: `contained_by` empty. -/
def topLevelIdx (cb : List (List Nat)) (n : Nat) : List Nat :=
  (List.range n).filter fun i => (cb.getD i []).isEmpty

/-- Declarative form of the first loop: one `declsFor` block per
top-level subpath, prefixes numbered consecutively from 0. -/
def emitSpecPoints (path : List Subpath) (cs cb : List (List Nat)) (cx cy : ℚ) :
    List Decl :=
  (topLevelIdx cb path.length).enum.flatMap fun p => declsFor path cs cx cy p.1 p.2

/-- Declarative form of the second loop. -/
def emitSpecExtrude (path : List Subpath) (cs cb : List (List Nat))
    (filled forceLine : Bool) : List Decl :=
  (topLevelIdx cb path.length).enum.map fun p =>
    Decl.extrude p.1 (extrudeKindFor filled forceLine (cs.getD p.2 []).isEmpty)

/-! ## The SVG traversal (`recursivelyTraverseSvg`) and the `effect`
pipeline -/

/-- The node kinds the traversal distinguishes, source lines 904-1152.
`path` stands for any element that reaches `getPathVertices` (paths and
the shapes pre-converted to path form: rect, line, polyline, polygon,
ellipse, circle); `ignorable` for the silently ignored kinds (defs,
metadata, namedview, title, patterns, gradients, ...); `unknown` for any
other tag, which falls to the final `else` warning. -/
inductive Tag where
  | g
  | path
  | image
  | text
  | unknown (name : String)
  | ignorable

deriving instance DecidableEq, Repr for Tag

/-- The attributes of one drawing node that the modelled traversal reads.
`content` abstracts `getPathVertices`: the flattened subpath vertex lists
of the node's path data with the node's absolute transform applied
(parsing, flattening and transforms are collaborator concerns);
`fillNone`/`strokeNone` abstract the `getPathStyle` dictionary lookups
used by `convertPath`; `texts` the text collected from a text node's
subtree. -/
structure NodeData where
  tag : Tag
  visibility : Option String
  style : Option String
  content : List (List Pt)
  texts : List String
  fillNone : Bool
  strokeNone : Bool

deriving instance DecidableEq, Repr for NodeData

mutual
inductive SNode where
  | mk (d : NodeData) (children : SNodeList)
inductive SNodeList where
  | nil
  | cons (n : SNode) (rest : SNodeList)
end

def SNodeList.append : SNodeList → SNodeList → SNodeList
  | .nil, ys => ys
  | .cons x xs, ys => .cons x (xs.append ys)

/-- The warnings the modelled traversal can emit, source lines 1095-1152
(message text is presentation; each constructor stands for one
`inkex.errormsg` call site). -/
inductive Msg where
  | textContent (texts : List String)
  | textHint
  | imageWarn
  | unknownObject (tag : String)

deriving instance DecidableEq, Repr for Msg

/-- `1.0E70`, the initial bounding-box sentinel of source
lines 430-431. -/
def big : ℚ := 10 ^ 70

/-- The traversal state: the running drawing bounding box
(`self.xmin/xmax/ymin/ymax`), the collected paths (`self.paths`, in
insertion order), the warnings dictionary keys (`self.warnings`) and the
emitted warning messages. -/
structure TState where
  g : BBox
  paths : List PathEntry
  warnKeys : List String
  msgs : List Msg

deriving instance DecidableEq, Repr for TState

def initState : TState :=
  { g := ⟨big, -big, big, -big⟩, paths := [], warnKeys := [], msgs := [] }

/-- One step of the per-subpath bounding-box tracking, source
lines 628-635 (with its `elif` structure). -/
def spBBoxStep (b : BBox) (pt : Pt) : BBox :=
  let b1 :=
    if pt.1 < b.xmin then { b with xmin := pt.1 }
    else if pt.1 > b.xmax then { b with xmax := pt.1 }
    else b
  if pt.2 < b1.ymin then { b1 with ymin := pt.2 }
  else if pt.2 > b1.ymax then { b1 with ymax := pt.2 }
  else b1

/-- The bounding box of one subpath, initialised from its first point,
source lines 612-616.  (The source never reaches this with an empty
vertex list: every subpath starts with `sp[0][1]`.) -/
def spBBox : List Pt → BBox
  | [] => ⟨0, 0, 0, 0⟩
  | p :: rest => rest.foldl spBBoxStep ⟨p.1, p.1, p.2, p.2⟩

/-- Folding one subpath's bounding box into the drawing-wide running
bounding box, source lines 640-647. -/
def mergeBBox (g b : BBox) : BBox :=
  let g1 := if b.xmin < g.xmin then { g with xmin := b.xmin } else g
  let g2 := if b.xmax > g1.xmax then { g1 with xmax := b.xmax } else g1
  let g3 := if b.ymin < g2.ymin then { g2 with ymin := b.ymin } else g2
  if b.ymax > g3.ymax then { g3 with ymax := b.ymax } else g3

/-- The state effect of `getPathVertices(path, node, transform)`, source
lines 568-654: per nonempty subpath, record its vertices with their
bounding box and fold that box into the drawing-wide one; register the
element in `self.paths` only when it produced at least one subpath. -/
def getPathVerticesModel (st : TState) (d : NodeData) : TState :=
  let subs := d.content.filter fun sp => !sp.isEmpty
  let entries := subs.map fun sp => (sp, spBBox sp)
  let g' := entries.foldl (fun g e => mergeBBox g e.2) st.g
  if entries.isEmpty then st
  else
    { st with
      g := g'
      paths := st.paths ++
        [{ subpaths := entries
           fillNone := d.fillNone
           strokeNone := d.strokeNone }] }

/-- The effective visibility, source lines 890-892:
`v = node.get('visibility', parent_visibility)`, with `'inherit'`
resolving to the parent's value. -/
def effVis (d : NodeData) (parentVis : String) : String :=
  match d.visibility with
  | none => parentVis
  | some v => if v == "inherit" then parentVis else v

/-- `node.get('style', '')`, source line 896. -/
def styleStr (d : NodeData) : String := d.style.getD ("")

/-- The two skip conditions of the traversal, source lines 893-898:
effective visibility `hidden`/`collapse`, or a style attribute exactly
equal to `display:none`. -/
def isSkipped (parentVis : String) : SNode → Bool
  | .mk d _ =>
      (effVis d parentVis == "hidden") || (effVis d parentVis == "collapse") ||
        (styleStr d == "display:none")

mutual
/-- `recursivelyTraverseSvg`, source lines 865-1152, on one node: the two
skip checks, then dispatch on the tag (groups recurse with the resolved
visibility `v`; path-like nodes run `getPathVertices`; image warns once
per document via `self.warnings`; text warns per occurrence when its
subtree has text; the final `else` warns per occurrence; ignorable kinds
`pass`). -/
def traverseNode (st : TState) (parentVis : String) : SNode → TState
  | .mk d children =>
      let v := effVis d parentVis
      if v == "hidden" || v == "collapse" then st
      else if styleStr d == "display:none" then st
      else
        match d.tag with
        | Tag.g => traverseList st v children
        | Tag.path => getPathVerticesModel st d
        | Tag.image =>
            if st.warnKeys.contains ("image") then st
            else
              { st with
                msgs := st.msgs ++ [Msg.imageWarn]
                warnKeys := st.warnKeys ++ ["image"] }
        | Tag.text =>
            if d.texts.isEmpty then st
            else { st with msgs := st.msgs ++ [Msg.textContent d.texts, Msg.textHint] }
        | Tag.unknown name => { st with msgs := st.msgs ++ [Msg.unknownObject name] }
        | Tag.ignorable => st

/-- The `for node in aNodeList` loop of `recursivelyTraverseSvg`. -/
def traverseList (st : TState) (parentVis : String) : SNodeList → TState
  | .nil => st
  | .cons n rest => traverseList (traverseNode st parentVis n) parentVis rest
end

/-- The tag dispatch of `traverseNode` once the skip checks have passed,
as a standalone function (see `traverseNode_not_skipped`). -/
def traverseDispatch (st : TState) (v : String) (d : NodeData)
    (children : SNodeList) : TState :=
  match d.tag with
  | Tag.g => traverseList st v children
  | Tag.path => getPathVerticesModel st d
  | Tag.image =>
      if st.warnKeys.contains ("image") then st
      else
        { st with
          msgs := st.msgs ++ [Msg.imageWarn]
          warnKeys := st.warnKeys ++ ["image"] }
  | Tag.text =>
      if d.texts.isEmpty then st
      else { st with msgs := st.msgs ++ [Msg.textContent d.texts, Msg.textHint] }
  | Tag.unknown name => { st with msgs := st.msgs ++ [Msg.unknownObject name] }
  | Tag.ignorable => st

/-- Sequential emission over the collected elements (`for key in
self.paths: self.convertPath(key)`, source lines 1232-1234); an exception
from one element aborts the run (`none`). -/
def emitAll (forceLine : Bool) (cx cy : ℚ) : List PathEntry → Option (List Decl)
  | [] => some []
  | e :: rest =>
      match convertPathDecls e forceLine cx cy with
      | none => none
      | some ds =>
          match emitAll forceLine cx cy rest with
          | none => none
          | some rest' => some (ds ++ rest')

/-- The two-phase pipeline of `effect()` in whole-document mode, source
lines 1175-1254: traverse everything (accumulating `self.paths` and the
drawing bounding box), then compute the centering offsets
`cx = xmin + (xmax - xmin)/2`, `cy = ymin + (ymax - ymin)/2`
(lines 1195-1196), then emit every element with those offsets. -/
def effectModel (root : SNodeList) (forceLine : Bool) :
    Option (TState × List Decl) :=
  let st := traverseList initState ("visible") root
  let cx := st.g.xmin + (st.g.xmax - st.g.xmin) / 2
  let cy := st.g.ymin + (st.g.ymax - st.g.ymin) / 2
  match emitAll forceLine cx cy st.paths with
  | none => none
  | some ds => some (st, ds)

mutual
/-- The points of every nonempty subpath of every path node the traversal
visits (not skipped by visibility/`display:none`), in traversal order. -/
def visPtsNode (parentVis : String) : SNode → List Pt
  | .mk d children =>
      let v := effVis d parentVis
      if v == "hidden" || v == "collapse" then []
      else if styleStr d == "display:none" then []
      else
        match d.tag with
        | Tag.g => visPtsList v children
        | Tag.path => (d.content.filter fun sp => !sp.isEmpty).flatten
        | _ => []

def visPtsList (parentVis : String) : SNodeList → List Pt
  | .nil => []
  | .cons n rest => visPtsNode parentVis n ++ visPtsList parentVis rest
end

/-- Minimum x-coordinate over a point list, seeded with the sentinel
(`1.0E70`): the drawing-wide `xmin`. -/
def xminOf (pts : List Pt) : ℚ := (pts.map Prod.fst).foldl min big

def xmaxOf (pts : List Pt) : ℚ := (pts.map Prod.fst).foldl max (-big)

def yminOf (pts : List Pt) : ℚ := (pts.map Prod.snd).foldl min big

def ymaxOf (pts : List Pt) : ℚ := (pts.map Prod.snd).foldl max (-big)

/-- All original points of one collected element. -/
def entryPts (e : PathEntry) : List Pt := (e.subpaths.map Prod.fst).flatten

/-- Componentwise min/max extension of a bounding box by a point list
(specification form of the source's incremental tracking). -/
def gMins (g : BBox) (pts : List Pt) : BBox :=
  ⟨(pts.map Prod.fst).foldl min g.xmin, (pts.map Prod.fst).foldl max g.xmax,
   (pts.map Prod.snd).foldl min g.ymin, (pts.map Prod.snd).foldl max g.ymax⟩

mutual
/-- The `PathEntry` records the traversal appends for one node (empty for
skipped or non-path nodes; the entries of the children, in order, for a
group). -/
def pathEntriesNode (parentVis : String) : SNode → List PathEntry
  | .mk d children =>
      let v := effVis d parentVis
      if v == "hidden" || v == "collapse" then []
      else if styleStr d == "display:none" then []
      else
        match d.tag with
        | Tag.g => pathEntriesList v children
        | Tag.path =>
            let subs := d.content.filter fun sp => !sp.isEmpty
            let entries := subs.map fun sp => (sp, spBBox sp)
            if entries.isEmpty then []
            else
              [{ subpaths := entries
                 fillNone := d.fillNone
                 strokeNone := d.strokeNone }]
        | _ => []

def pathEntriesList (parentVis : String) : SNodeList → List PathEntry
  | .nil => []
  | .cons n rest => pathEntriesNode parentVis n ++ pathEntriesList parentVis rest
end

/-- C4 witness fixture: an outer square and an inner rectangle whose
vertices lie on the outer square's horizontal edges. -/
def pathNested : List Subpath :=
  [([(0, 0), (4, 0), (4, 4), (0, 4)], ⟨0, 4, 0, 4⟩),
   ([(1, 0), (3, 0), (3, 4), (1, 4)], ⟨1, 3, 0, 4⟩)]

def entryNested : PathEntry :=
  { subpaths := pathNested, fillNone := false, strokeNone := false }

def mapsNested : ContainMaps :=
  { contains := [[1], []], containedBy := [[], [0]] }

/-- C5 witness fixture: one visible path node with a single two-point
subpath. -/
def pathNodeW : SNode :=
  .mk { tag := Tag.path, visibility := none, style := none,
        content := [[(0, 2), (4, 2)]], texts := [], fillNone := false,
        strokeNone := false } .nil

def rootW : SNodeList := .cons pathNodeW .nil

def stW : TState := traverseList initState ("visible") rootW

def cxW : ℚ := stW.g.xmin + (stW.g.xmax - stW.g.xmin) / 2

def cyW : ℚ := stW.g.ymin + (stW.g.ymax - stW.g.ymin) / 2

def dsW : List Decl := (emitAll false cxW cyW stW.paths).getD []

def qsW : List Pt := [((0 : ℚ) - cxW, (2 : ℚ) - cyW), ((4 : ℚ) - cxW, (2 : ℚ) - cyW)]

def cW : Pt := (((0 : ℚ) + 4) / 2 - cxW, ((2 : ℚ) + 2) / 2 - cyW)

/-- The image-warning bookkeeping invariant: the bitmap-image warning has
been emitted at most once, and only if the `'image'` key is in the
warnings dictionary. -/
def imageInv (st : TState) : Prop :=
  st.msgs.count Msg.imageWarn ≤ if st.warnKeys.contains ("image") then 1 else 0

/-- C9 fixture: a drawing element of an unsupported kind. -/
def unknownNodeW : SNode :=
  .mk { tag := Tag.unknown ("foo"), visibility := none, style := none,
        content := [], texts := [], fillNone := false, strokeNone := false } .nil

/-- C9 fixture: a document with two unsupported elements of the same
kind. -/
def docUnknown2 : SNodeList := .cons unknownNodeW (.cons unknownNodeW .nil)

/-- C10 fixture: a group with `visibility="hidden"` containing a path
child. -/
def hiddenNodeW : SNode :=
  .mk { tag := Tag.g, visibility := some ("hidden"), style := none,
        content := [], texts := [], fillNone := false, strokeNone := false }
    (.cons pathNodeW .nil)

/-- C10 fixture: a path node whose style contains `display:none` among
other properties. -/
def styledNodeW : NodeData :=
  { tag := Tag.path, visibility := none, style := some ("display:none;fill:red"),
    content := [[(1, 1)]], texts := [], fillNone := false, strokeNone := false }

end P2S

namespace P2S

theorem allInPoly_eq_true_iff (poly1 poly2 : List Pt) (bbox2 : Option BBox) :
    allInPoly poly1 poly2 bbox2 = some true ↔
      ∀ p ∈ poly1, pointInPoly p poly2 bbox2 = some true := by
  induction poly1 with
  | nil => simp [allInPoly]
  | cons p rest ih =>
      simp only [allInPoly]
      cases h : pointInPoly p poly2 bbox2 with
      | none => simp [h]
      | some b =>
          cases b with
          | false => simp [h]
          | true => simp [h, ih]

/-- C1: with both bounding boxes supplied, `polyInPoly` returns `True`
iff `bbox1` lies non-strictly within `bbox2` and every vertex of `poly1`
is classified inside-or-on `poly2` by `pointInPoly` (called with `bbox2`);
and whenever the bounding-box pre-check fails the result is `False`
(short-circuiting past the point-in-polygon tests). -/
theorem polyInPoly_true_iff_bbox_and_vertices
    (poly1 poly2 : List Pt) (b1 b2 : BBox) :
    (polyInPoly poly1 (some b1) poly2 (some b2) = some true ↔
      (bboxInBBox b1 b2 = true ∧
        ∀ p ∈ poly1, pointInPoly p poly2 (some b2) = some true)) ∧
    (bboxInBBox b1 b2 = false →
      polyInPoly poly1 (some b1) poly2 (some b2) = some false) := by
  constructor
  · by_cases h : bboxInBBox b1 b2 = true
    · simp [polyInPoly, h, allInPoly_eq_true_iff]
    · simp only [Bool.not_eq_true] at h
      simp [polyInPoly, h]
  · intro h
    simp [polyInPoly, h]

/-- Witness for C1: a concrete pair whose bounding boxes are disjoint is
rejected by the pre-check. -/
theorem polyInPoly_true_iff_bbox_and_vertices_witness :
    polyInPoly [((0 : ℚ), (0 : ℚ))] (some ⟨0, 1, 0, 1⟩) sqA (some ⟨5, 7, 5, 7⟩)
      = some false :=
  (polyInPoly_true_iff_bbox_and_vertices [((0 : ℚ), (0 : ℚ))] sqA ⟨0, 1, 0, 1⟩
    ⟨5, 7, 5, 7⟩).2 (by decide)

/-- C6 counterexample: the point `(1,0)` lies on the horizontal closing
edge `(2,0)-(0,0)` of the closed polygon `sqClosing` (the pair is an edge
walked by the ray-casting loop), is not a vertex, and its x-coordinate is
strictly between the two distinct endpoint x-coordinates — yet
`pointInPoly` classifies it as outside, because the horizontal-edge
special case scans only consecutive vertex pairs, never the implicit
closing edge. -/
theorem pointInPoly_closing_edge_counterexample :
    (((2 : ℚ), (0 : ℚ)), ((0 : ℚ), (0 : ℚ))) ∈ rayEdges sqClosing ∧
    (((1 : ℚ), (0 : ℚ)) ∉ sqClosing) ∧
    min (2 : ℚ) 0 < 1 ∧ (1 : ℚ) < max 2 0 ∧
    pointInPoly ((1 : ℚ), (0 : ℚ)) sqClosing none = some false := by
  refine ⟨by decide, by decide, by norm_num, by norm_num, ?_⟩
  decide

/-- C6 amended: with no bounding box supplied, `pointInPoly` classifies as
inside every point that equals a vertex, and every point lying on a
horizontal edge between two *consecutive* vertices of the polygon whose
x-coordinate is strictly between the two distinct endpoint x-coordinates;
the implicit closing edge from the last vertex back to the first is not
covered by the horizontal-edge rule. -/
theorem pointInPoly_vertex_or_consecutive_horizontal
    (p : Pt) (poly : List Pt) :
    (p ∈ poly → pointInPoly p poly none = some true) ∧
    (∀ q1 q2 : Pt, (q1, q2) ∈ List.zip poly poly.tail →
      p.2 = q1.2 → q1.2 = q2.2 → min q1.1 q2.1 < p.1 → p.1 < max q1.1 q2.1 →
      pointInPoly p poly none = some true) := by
  constructor
  · intro h
    simp [pointInPoly, pointInPolyNoBB, h]
  · intro q1 q2 hmem h1 h2 h3 h4
    by_cases hv : p ∈ poly
    · simp [pointInPoly, pointInPolyNoBB, hv]
    · match poly, hmem with
      | a :: b :: t, hmem =>
          have hany : (horizPairs (a :: b :: t)).any
              (fun e => horizEdgeHit p.1 p.2 e.1 e.2) = true := by
            refine List.any_eq_true.2 ⟨(q1, q2), ?_, ?_⟩
            · exact List.mem_cons_of_mem _ hmem
            · simp only [horizEdgeHit, decide_eq_true_eq]
              exact ⟨h1, h2, h3, h4⟩
          simp [pointInPoly, pointInPolyNoBB, hv, hany]

/-- Witness for the amended C6: `(1,0)` lies on the consecutive bottom
edge `(0,0)-(2,0)` of `sqA` and is classified inside. -/
theorem pointInPoly_vertex_or_consecutive_horizontal_witness :
    pointInPoly ((1 : ℚ), (0 : ℚ)) sqA none = some true :=
  (pointInPoly_vertex_or_consecutive_horizontal ((1 : ℚ), (0 : ℚ)) sqA).2
    (0, 0) (2, 0) (by decide) (by decide) (by decide) (by norm_num) (by norm_num)

/-- C8 counterexample: `sqA` (a square) and `sqNotch` (the same square
with an extra vertex `(1,1)` notching the top edge: a genuinely different
vertex set and region) mutually contain each other under `polyInPoly`, so
the containment test is not anti-symmetric on distinct, non-identical
polygons. -/
theorem polyInPoly_not_antisymmetric_counterexample :
    sqA ≠ sqNotch ∧
    (((1 : ℚ), (1 : ℚ)) ∈ sqNotch) ∧ (((1 : ℚ), (1 : ℚ)) ∉ sqA) ∧
    polyInPoly sqA (some sqBB) sqNotch (some sqBB) = some true ∧
    polyInPoly sqNotch (some sqBB) sqA (some sqBB) = some true := by
  refine ⟨by decide, by decide, by decide, by decide, ?_⟩
  norm_num [polyInPoly, allInPoly, pointInPoly, pointInPolyNoBB, sqNotch, sqA, sqBB,
    pointInBBox, bboxInBBox, horizPairs, rayEdges, horizEdgeHit, rayStep,
    List.zip, List.zipWith, List.foldl, List.any, min_def, max_def]

theorem polyInPoly_some_true_bbox (p1 p2 : List Pt) (b1 b2 : BBox)
    (h : polyInPoly p1 (some b1) p2 (some b2) = some true) :
    bboxInBBox b1 b2 = true := by
  by_cases hb : bboxInBBox b1 b2 = true
  · exact hb
  · simp only [Bool.not_eq_true] at hb
    simp [polyInPoly, hb] at h

theorem bboxInBBox_le (b1 b2 : BBox) (h : bboxInBBox b1 b2 = true) :
    b2.xmin ≤ b1.xmin ∧ b1.xmax ≤ b2.xmax ∧ b2.ymin ≤ b1.ymin ∧ b1.ymax ≤ b2.ymax := by
  by_cases hc : b1.xmin < b2.xmin ∨ b1.xmax > b2.xmax ∨ b1.ymin < b2.ymin ∨ b1.ymax > b2.ymax
  · simp [bboxInBBox, hc] at h
  · push_neg at hc
    obtain ⟨u1, u2, u3, u4⟩ := hc
    exact ⟨u1, u2, u3, u4⟩

/-- C8 amended: mutual enclosure under `polyInPoly` is possible for
distinct polygons; what the bounding-box pre-check does guarantee is that
mutual enclosure forces the two bounding boxes to be equal. -/
theorem polyInPoly_mutual_eq_bbox (p1 p2 : List Pt) (b1 b2 : BBox)
    (h12 : polyInPoly p1 (some b1) p2 (some b2) = some true)
    (h21 : polyInPoly p2 (some b2) p1 (some b1) = some true) :
    b1 = b2 := by
  obtain ⟨a1, a2, a3, a4⟩ := bboxInBBox_le b1 b2 (polyInPoly_some_true_bbox _ _ _ _ h12)
  obtain ⟨c1, c2, c3, c4⟩ := bboxInBBox_le b2 b1 (polyInPoly_some_true_bbox _ _ _ _ h21)
  cases b1
  cases b2
  simp only [BBox.mk.injEq]
  exact ⟨le_antisymm c1 a1, le_antisymm a2 c2, le_antisymm c3 a3, le_antisymm a4 c4⟩

/-- Witness for the amended C8: the square contains itself both ways and
the conclusion yields its (equal) bounding box. -/
theorem polyInPoly_mutual_eq_bbox_witness : sqBB = sqBB :=
  polyInPoly_mutual_eq_bbox sqA sqA sqBB sqBB (by decide) (by decide)

theorem nodeAt_splitStep_ne (one two : Bez) (sp : List CNode) (i k : Nat)
    (hk : k < i) (hki : k ≠ i - 1) (hlen : i < sp.length) :
    nodeAt (splitStep one two sp i) k = nodeAt sp k := by
  simp only [splitStep, nodeAt]
  rw [List.getElem?_append_left, List.getElem?_take_of_lt hk,
    List.getElem?_set_ne (Ne.symm (Nat.ne_of_lt hk)),
    List.getElem?_set_ne (Ne.symm hki)]
  simp only [List.length_take, List.length_set]
  exact lt_min hk (lt_trans hk hlen)

theorem nodeAt_splitStep_pred (one two : Bez) (sp : List CNode) (i : Nat)
    (hi : 1 ≤ i) (hlen : i < sp.length) :
    nodeAt (splitStep one two sp i) (i - 1) =
      { nodeAt sp (i - 1) with c2 := one.p1 } := by
  have hpred : i - 1 < i := Nat.sub_lt (lt_of_lt_of_le Nat.zero_lt_one hi) Nat.zero_lt_one
  simp only [splitStep, nodeAt]
  rw [List.getElem?_append_left, List.getElem?_take_of_lt hpred,
    List.getElem?_set_ne (Ne.symm (Nat.ne_of_lt hpred)),
    List.getElem?_set_self (lt_trans hpred hlen)]
  · rfl
  · simp only [List.length_take, List.length_set]
    exact lt_min hpred (lt_trans hpred hlen)

theorem bezAt_splitStep (one two : Bez) (sp : List CNode) (i j : Nat)
    (hj : 1 ≤ j) (hji : j < i) (hlen : i < sp.length) :
    bezAt (splitStep one two sp i) j = bezAt sp j := by
  have hj1i : j - 1 < i := lt_trans (Nat.sub_lt (lt_of_lt_of_le Nat.zero_lt_one hj) Nat.zero_lt_one) hji
  have hj1ne : j - 1 ≠ i - 1 := by omega
  by_cases hjpred : j = i - 1
  · subst hjpred
    simp only [bezAt, nodeAt_splitStep_ne one two sp i _ hj1i hj1ne hlen,
      nodeAt_splitStep_pred one two sp i (le_of_lt (lt_of_le_of_lt hj hji)) hlen]
  · simp only [bezAt, nodeAt_splitStep_ne one two sp i _ hj1i hj1ne hlen,
      nodeAt_splitStep_ne one two sp i j hji hjpred hlen]

theorem subdivideCubicPath_aux (maxd : Bez → ℚ) (split : Bez → Bez × Bez)
    (flat : ℚ) :
    ∀ (fuel : Nat) (sp : List CNode) (i : Nat) (sp' : List CNode), 1 ≤ i →
      (∀ j, 1 ≤ j → j < i → maxd (bezAt sp j) ≤ flat) →
      subdivideCubicPath maxd split flat fuel sp i = some sp' →
      ∀ j, 1 ≤ j → j < sp'.length → maxd (bezAt sp' j) ≤ flat := by
  intro fuel
  induction fuel with
  | zero =>
      intro sp i sp' _ _ h
      exact absurd h (by simp [subdivideCubicPath])
  | succ n ih =>
      intro sp i sp' hi hinv h
      simp only [subdivideCubicPath] at h
      by_cases hlen : sp.length ≤ i
      · rw [if_pos hlen] at h
        have hsp : sp = sp' := Option.some.inj h
        subst hsp
        intro j hj1 hj2
        exact hinv j hj1 (lt_of_lt_of_le hj2 hlen)
      · rw [if_neg hlen] at h
        by_cases hmax : maxd (bezAt sp i) > flat
        · rw [if_pos hmax] at h
          refine ih _ i sp' hi ?_ h
          intro j hj1 hj2
          rw [bezAt_splitStep _ _ sp i j hj1 hj2 (not_le.mp hlen)]
          exact hinv j hj1 hj2
        · rw [if_neg hmax] at h
          refine ih sp (i + 1) sp' (Nat.le_succ_of_le hi) ?_ h
          intro j hj1 hj2
          rcases Nat.lt_succ_iff_lt_or_eq.mp hj2 with hlt | heq
          · exact hinv j hj1 hlt
          · subst heq
            exact not_lt.mp hmax

/-- C3: for every flatness tolerance `flat > 0` and every deviation
metric / splitter pair, whenever `subdivideCubicPath` (started at the
default index `i = 1`) terminates, every consecutive 4-control-point
segment of the resulting super-path has deviation metric at most `flat`:
every accepted straight segment is within the tolerance. -/
theorem subdivideCubicPath_flat (maxd : Bez → ℚ) (split : Bez → Bez × Bez)
    (flat : ℚ) (_hflat : 0 < flat) (fuel : Nat) (sp sp' : List CNode)
    (h : subdivideCubicPath maxd split flat fuel sp 1 = some sp') :
    ∀ j, 1 ≤ j → j < sp'.length → maxd (bezAt sp' j) ≤ flat :=
  subdivideCubicPath_aux maxd split flat fuel sp 1 sp' le_rfl
    (fun _j hj1 hj2 => absurd (lt_of_le_of_lt hj1 hj2) (lt_irrefl 1)) h

/-- Witness for C3: a two-node path with a constant-zero metric is
accepted immediately and its single segment is within tolerance 1. -/
theorem subdivideCubicPath_flat_witness : maxdW (bezAt spW 1) ≤ (1 : ℚ) :=
  subdivideCubicPath_flat maxdW splitW 1 one_pos 3 spW spW (by rfl) 1 le_rfl
    (by decide)

/-- C2: an element with identifier `part_10_5_mm` and no description
resolves height `"10.5"`; a description line `height: 7mm` overrides the
identifier, giving height `"7"`; a description line `height: a7mm` gives
height `"7"` with the negative flag set. -/
theorem extrusion_attribute_precedence_cases :
    (object_merge_extrusion_values extrusionInit [nodeIdOnly]).height = "10.5" ∧
    (object_merge_extrusion_values extrusionInit [nodeIdOnly]).neg = false ∧
    (object_merge_extrusion_values extrusionInit [nodeDesc7]).height = "7" ∧
    (object_merge_extrusion_values extrusionInit [nodeDesc7]).neg = false ∧
    (object_merge_extrusion_values extrusionInit [nodeDescA7]).height = "7" ∧
    (object_merge_extrusion_values extrusionInit [nodeDescA7]).neg = true := by
  decide

/-- C7 counterexample: an enclosing group whose identifier encodes the
`a`-prefixed height `a5` sets the negative flag at its own level of the
walk; the element then overrides the height with plain `7`.  The final
negative flag is `true` although the finally resolved height `"7"` does
not begin with `a`/`A` — so the negative flag is not characterised by the
finally resolved height alone. -/
theorem negative_flag_final_height_counterexample :
    (object_merge_extrusion_values extrusionInit [nodeGroupA5, nodePlain7]).neg = true ∧
    (object_merge_extrusion_values extrusionInit [nodeGroupA5, nodePlain7]).height = "7" ∧
    beginsWithA
      (object_merge_extrusion_values extrusionInit [nodeGroupA5, nodePlain7]).height
      = false := by
  decide

theorem mergeWrites_neg (e : Extrusion) (n : NodeInfo) :
    (mergeWrites e n).neg = e.neg := by
  unfold mergeWrites
  repeat' split
  all_goals rfl

theorem stripNegStep_neg (e : Extrusion) :
    (stripNegStep e).neg = (e.neg || beginsWithA e.height) := by
  unfold stripNegStep
  cases h : beginsWithA e.height <;> simp [h]

theorem mergeNode_neg (e : Extrusion) (n : NodeInfo) :
    (mergeNode e n).neg = (e.neg || beginsWithA (mergeWrites e n).height) := by
  unfold mergeNode
  rw [stripNegStep_neg, mergeWrites_neg]

/-- C7 amended: the strip-check runs at the end of *every* level of the
inheritance walk, not once at the end; the negative flag, once set, is
never cleared.  Hence after the full walk the flag is `true` exactly when
it was already set initially or the height resolved at the end of some
level's identifier/description writes (before that level's strip) begins
with `a`/`A` — even if a later level overrides the height with an
unprefixed value. -/
theorem object_merge_neg_iff_triggered (e : Extrusion) (chain : List NodeInfo) :
    (object_merge_extrusion_values e chain).neg = (e.neg || negTriggered e chain) := by
  induction chain generalizing e with
  | nil => simp [object_merge_extrusion_values, negTriggered]
  | cons n rest ih =>
      simp only [object_merge_extrusion_values, List.foldl_cons, negTriggered]
      rw [show List.foldl mergeNode (mergeNode e n) rest
            = object_merge_extrusion_values (mergeNode e n) rest from rfl, ih]
      rw [mergeNode_neg]
      cases e.neg <;> cases beginsWithA (mergeWrites e n).height <;> simp

theorem pointsGo_eq (path : List Subpath) (cs cb : List (List Nat)) (cx cy : ℚ) :
    ∀ (l : List Nat) (k : Nat),
      pointsGo path cs cb cx cy l k =
        ((l.filter fun i => (cb.getD i []).isEmpty).enumFrom k).flatMap
          fun p => declsFor path cs cx cy p.1 p.2 := by
  intro l
  induction l with
  | nil => intro k; simp [pointsGo]
  | cons i rest ih =>
      intro k
      rw [pointsGo]
      by_cases h : (cb.getD i []).isEmpty
      · rw [if_pos h, List.filter_cons, if_pos h, ih (k + 1)]
        rfl
      · rw [if_neg h, List.filter_cons, if_neg h, ih k]

theorem extrudeGo_eq (cs cb : List (List Nat)) (filled forceLine : Bool) :
    ∀ (l : List Nat) (k : Nat),
      extrudeGo cs cb filled forceLine l k =
        ((l.filter fun i => (cb.getD i []).isEmpty).enumFrom k).map
          fun p => Decl.extrude p.1 (extrudeKindFor filled forceLine (cs.getD p.2 []).isEmpty) := by
  intro l
  induction l with
  | nil => intro k; simp [extrudeGo]
  | cons i rest ih =>
      intro k
      rw [extrudeGo]
      by_cases h : (cb.getD i []).isEmpty
      · rw [if_pos h, List.filter_cons, if_pos h, ih (k + 1)]
        rfl
      · rw [if_neg h, List.filter_cons, if_neg h, ih k]

/-- C4: whenever the containment computation succeeds, the declaration
stream of `convertPath` consists exactly of one block per *top-level*
subpath (those with empty `contained_by`), with prefixes numbered
consecutively: a subpath with nonempty `contained_by` — at any nesting
depth — gets no standalone center, point-list or extrusion declaration;
its points appear only folded into the point list (and index lists) of
the enclosing top-level subpaths, via `declsFor`. -/
theorem convertPath_skips_contained (e : PathEntry) (forceLine : Bool)
    (cx cy : ℚ) (maps : ContainMaps)
    (h : computeContainment e.subpaths = some maps) :
    convertPathDecls e forceLine cx cy =
      some (if e.fillNone && e.strokeNone then []
        else
          emitSpecPoints e.subpaths maps.contains maps.containedBy cx cy ++
            emitSpecExtrude e.subpaths maps.contains maps.containedBy
              (!e.fillNone) forceLine) := by
  unfold convertPathDecls
  by_cases he : e.subpaths.isEmpty
  · have hlen : e.subpaths.length = 0 := by
      cases hsp : e.subpaths with
      | nil => rfl
      | cons a t => rw [hsp] at he; simp [List.isEmpty] at he
    simp [he, emitSpecPoints, emitSpecExtrude, topLevelIdx, hlen, ite_self]
  · rw [h]
    simp only [he, Bool.false_eq_true, if_false]
    by_cases hskip : e.fillNone && e.strokeNone
    · have h1 : (!(!e.fillNone) && e.strokeNone) = true := by
        rw [Bool.not_not]; exact hskip
      simp [h1, hskip]
    · have h1 : (!(!e.fillNone) && e.strokeNone) = false := by
        rw [Bool.not_not]; exact Bool.eq_false_iff.mpr hskip
      simp only [h1, Bool.false_eq_true, if_false, hskip]
      rw [pointsGo_eq, extrudeGo_eq]
      simp [emitSpecPoints, emitSpecExtrude, topLevelIdx, List.enum]

/-- Witness for C4: the nested pair `pathNested`; the inner rectangle
(index 1, contained by 0) yields no standalone declarations and its
points are folded into the outer square's block. -/
theorem convertPath_skips_contained_witness :
    convertPathDecls entryNested false 0 0 =
      some (if entryNested.fillNone && entryNested.strokeNone then []
        else
          emitSpecPoints entryNested.subpaths mapsNested.contains
              mapsNested.containedBy 0 0 ++
            emitSpecExtrude entryNested.subpaths mapsNested.contains
              mapsNested.containedBy (!entryNested.fillNone) false) :=
  convertPath_skips_contained entryNested false 0 0 mapsNested (by decide)

theorem gMins_nil (g : BBox) : gMins g [] = g := by
  cases g
  simp [gMins]

theorem gMins_append (g : BBox) (l1 l2 : List Pt) :
    gMins (gMins g l1) l2 = gMins g (l1 ++ l2) := by
  simp [gMins, List.foldl_append]

theorem spBBoxStep_minmax (b : BBox) (pt : Pt) (hx : b.xmin ≤ b.xmax)
    (hy : b.ymin ≤ b.ymax) :
    spBBoxStep b pt =
      ⟨min b.xmin pt.1, max b.xmax pt.1, min b.ymin pt.2, max b.ymax pt.2⟩ := by
  cases b with
  | mk xm xM ym yM =>
      simp only at hx hy
      simp only [spBBoxStep]
      split_ifs <;>
        (simp only [BBox.mk.injEq]
         refine ⟨?_, ?_, ?_, ?_⟩ <;>
           (simp only [min_def, max_def]
            split_ifs <;> first | rfl | linarith))

theorem foldl_spBBoxStep_minmax (l : List Pt) :
    ∀ b : BBox, b.xmin ≤ b.xmax → b.ymin ≤ b.ymax →
      l.foldl spBBoxStep b = gMins b l := by
  induction l with
  | nil =>
      intro b _ _
      rw [List.foldl_nil, gMins_nil]
  | cons p t ih =>
      intro b hx hy
      rw [List.foldl_cons, spBBoxStep_minmax b p hx hy]
      rw [ih _ (by
            simp only
            exact le_trans (min_le_left _ _) (le_trans hx (le_max_left _ _)))
          (by
            simp only
            exact le_trans (min_le_left _ _) (le_trans hy (le_max_left _ _)))]
      simp [gMins, min_assoc, max_assoc]

theorem mergeBBox_minmax (g b : BBox) :
    mergeBBox g b =
      ⟨min g.xmin b.xmin, max g.xmax b.xmax, min g.ymin b.ymin, max g.ymax b.ymax⟩ := by
  cases g with
  | mk xm xM ym yM =>
      cases b with
      | mk a b c d =>
          simp only [mergeBBox]
          split_ifs <;>
            (simp only [BBox.mk.injEq]
             refine ⟨?_, ?_, ?_, ?_⟩ <;>
               (simp only [min_def, max_def]
                split_ifs <;> first | rfl | linarith))

theorem foldl_min_init (a : ℚ) (l : List ℚ) :
    ∀ b : ℚ, l.foldl min (min a b) = min a (l.foldl min b) := by
  induction l with
  | nil => intro b; rfl
  | cons c t ih =>
      intro b
      rw [List.foldl_cons, List.foldl_cons, min_assoc, ih (min b c)]

theorem foldl_max_init (a : ℚ) (l : List ℚ) :
    ∀ b : ℚ, l.foldl max (max a b) = max a (l.foldl max b) := by
  induction l with
  | nil => intro b; rfl
  | cons c t ih =>
      intro b
      rw [List.foldl_cons, List.foldl_cons, max_assoc, ih (max b c)]

theorem mergeBBox_spBBox (g : BBox) (p : Pt) (rest : List Pt) :
    mergeBBox g (spBBox (p :: rest)) = gMins g (p :: rest) := by
  rw [spBBox, foldl_spBBoxStep_minmax rest ⟨p.1, p.1, p.2, p.2⟩ le_rfl le_rfl,
    mergeBBox_minmax]
  simp only [gMins, List.map_cons, List.foldl_cons, BBox.mk.injEq]
  exact ⟨(foldl_min_init _ _ _).symm, (foldl_max_init _ _ _).symm,
    (foldl_min_init _ _ _).symm, (foldl_max_init _ _ _).symm⟩

theorem foldl_mergeBBox_subs (subs : List (List Pt)) (hall : ∀ sp ∈ subs, sp ≠ []) :
    ∀ g : BBox,
      ((subs.map fun sp => (sp, spBBox sp)).foldl (fun g e => mergeBBox g e.2) g) =
        gMins g subs.flatten := by
  induction subs with
  | nil => intro g; simp [gMins_nil]
  | cons sp t ih =>
      intro g
      have hsp : sp ≠ [] := hall sp (List.mem_cons_self _ _)
      match sp, hsp with
      | p :: rest, _ =>
          simp only [List.map_cons, List.foldl_cons, List.flatten_cons]
          rw [mergeBBox_spBBox, ih (fun s hs => hall s (List.mem_cons_of_mem _ hs)),
            gMins_append]

theorem getPathVerticesModel_char (st : TState) (d : NodeData) :
    (getPathVerticesModel st d).g =
        gMins st.g ((d.content.filter fun sp => !sp.isEmpty).flatten) ∧
      (getPathVerticesModel st d).paths = st.paths ++
        (if ((d.content.filter fun sp => !sp.isEmpty).map
              fun sp => (sp, spBBox sp)).isEmpty then []
         else
           [{ subpaths := (d.content.filter fun sp => !sp.isEmpty).map
                fun sp => (sp, spBBox sp)
              fillNone := d.fillNone
              strokeNone := d.strokeNone }]) := by
  have hall : ∀ sp ∈ d.content.filter (fun sp => !sp.isEmpty), sp ≠ [] := by
    intro sp hs heq
    have hpred := (List.mem_filter.mp hs).2
    subst heq
    simp at hpred
  simp only [getPathVerticesModel]
  split
  case isTrue h =>
      have hsubs : d.content.filter (fun sp => !sp.isEmpty) = [] := by
        have := List.isEmpty_iff.mp h
        exact List.map_eq_nil_iff.mp this
      rw [hsubs]
      simp [gMins_nil, h]
  case isFalse h =>
      refine ⟨?_, by simp [h]⟩
      simp only
      rw [foldl_mergeBBox_subs _ hall st.g]

mutual
theorem traverseNode_char (n : SNode) :
    ∀ (st : TState) (pv : String),
      (traverseNode st pv n).g = gMins st.g (visPtsNode pv n) ∧
      (traverseNode st pv n).paths = st.paths ++ pathEntriesNode pv n := by
  match n with
  | .mk d children =>
      intro st pv
      cases d with
      | mk tag vis style content texts fn sn =>
          simp only [traverseNode, visPtsNode, pathEntriesNode]
          by_cases h1 : (effVis ⟨tag, vis, style, content, texts, fn, sn⟩ pv == "hidden" ||
              effVis ⟨tag, vis, style, content, texts, fn, sn⟩ pv == "collapse") = true
          · simp [h1, gMins_nil]
          · simp only [h1, Bool.false_eq_true, if_false]
            by_cases h2 : (styleStr ⟨tag, vis, style, content, texts, fn, sn⟩ ==
                "display:none") = true
            · simp [h2, gMins_nil]
            · simp only [h2, Bool.false_eq_true, if_false]
              cases tag with
              | g =>
                  exact traverseList_char children st
                    (effVis ⟨Tag.g, vis, style, content, texts, fn, sn⟩ pv)
              | path => exact getPathVerticesModel_char st _
              | image =>
                  dsimp only
                  refine ⟨?_, ?_⟩ <;> (split <;> simp [gMins_nil])
              | text =>
                  dsimp only
                  refine ⟨?_, ?_⟩ <;> (split <;> simp [gMins_nil])
              | unknown name =>
                  dsimp only
                  simp [gMins_nil]
              | ignorable =>
                  dsimp only
                  simp [gMins_nil]

theorem traverseList_char (ns : SNodeList) :
    ∀ (st : TState) (pv : String),
      (traverseList st pv ns).g = gMins st.g (visPtsList pv ns) ∧
      (traverseList st pv ns).paths = st.paths ++ pathEntriesList pv ns := by
  match ns with
  | .nil =>
      intro st pv
      simp [traverseList, visPtsList, pathEntriesList, gMins_nil]
  | .cons n rest =>
      intro st pv
      simp only [traverseList, visPtsList, pathEntriesList]
      obtain ⟨hg, hp⟩ := traverseNode_char n st pv
      obtain ⟨hg2, hp2⟩ := traverseList_char rest (traverseNode st pv n) pv
      exact ⟨by rw [hg2, hg, gMins_append],
        by rw [hp2, hp, List.append_assoc]⟩
end

mutual
theorem pathEntriesNode_pts (n : SNode) :
    ∀ (pv : String) (e : PathEntry), e ∈ pathEntriesNode pv n →
      ∀ p ∈ entryPts e, p ∈ visPtsNode pv n := by
  match n with
  | .mk d children =>
      intro pv e he p hp
      cases d with
      | mk tag vis style content texts fn sn =>
          simp only [pathEntriesNode, visPtsNode] at he ⊢
          by_cases h1 : (effVis ⟨tag, vis, style, content, texts, fn, sn⟩ pv == "hidden" ||
              effVis ⟨tag, vis, style, content, texts, fn, sn⟩ pv == "collapse") = true
          · rw [if_pos h1] at he
            exact absurd he (List.not_mem_nil e)
          · rw [if_neg h1] at he
            rw [if_neg h1]
            by_cases h2 : (styleStr ⟨tag, vis, style, content, texts, fn, sn⟩ ==
                "display:none") = true
            · rw [if_pos h2] at he
              exact absurd he (List.not_mem_nil e)
            · rw [if_neg h2] at he
              rw [if_neg h2]
              cases tag with
              | g => exact pathEntriesList_pts children _ e he p hp
              | path =>
                  dsimp only at he ⊢
                  split at he
                  · exact absurd he (List.not_mem_nil e)
                  · have hee := List.mem_singleton.mp he
                    subst hee
                    simp only [entryPts, List.map_map] at hp
                    simpa using hp
              | image => dsimp only at he; exact absurd he (List.not_mem_nil e)
              | text => dsimp only at he; exact absurd he (List.not_mem_nil e)
              | unknown name => dsimp only at he; exact absurd he (List.not_mem_nil e)
              | ignorable => dsimp only at he; exact absurd he (List.not_mem_nil e)

theorem pathEntriesList_pts (ns : SNodeList) :
    ∀ (pv : String) (e : PathEntry), e ∈ pathEntriesList pv ns →
      ∀ p ∈ entryPts e, p ∈ visPtsList pv ns := by
  match ns with
  | .nil =>
      intro pv e he
      exact absurd he (List.not_mem_nil e)
  | .cons n rest =>
      intro pv e he p hp
      simp only [pathEntriesList, visPtsList]
      rcases List.mem_append.mp he with h | h
      · exact List.mem_append_left _ (pathEntriesNode_pts n pv e h p hp)
      · exact List.mem_append_right _ (pathEntriesList_pts rest pv e h p hp)
end

theorem emitAll_mem (forceLine : Bool) (cx cy : ℚ) :
    ∀ (entries : List PathEntry) (ds : List Decl),
      emitAll forceLine cx cy entries = some ds → ∀ d ∈ ds,
        ∃ e ∈ entries, ∃ l, convertPathDecls e forceLine cx cy = some l ∧ d ∈ l := by
  intro entries
  induction entries with
  | nil =>
      intro ds h d hd
      rw [emitAll] at h
      cases Option.some.inj h
      exact absurd hd (List.not_mem_nil d)
  | cons e rest ih =>
      intro ds h d hd
      rw [emitAll] at h
      cases h1 : convertPathDecls e forceLine cx cy with
      | none => rw [h1] at h; exact absurd h (by simp)
      | some l =>
          rw [h1] at h
          cases h2 : emitAll forceLine cx cy rest with
          | none => rw [h2] at h; exact absurd h (by simp)
          | some rest' =>
              rw [h2] at h
              cases Option.some.inj h
              rcases List.mem_append.mp hd with hdl | hdr
              · exact ⟨e, List.mem_cons_self _ _, l, h1, hdl⟩
              · obtain ⟨e', he', l', hl', hd'⟩ := ih rest' h2 d hdr
                exact ⟨e', List.mem_cons_of_mem _ he', l', hl', hd'⟩

theorem extrudeGo_shape (cs cb : List (List Nat)) (filled forceLine : Bool) :
    ∀ (l : List Nat) (k : Nat) (d : Decl), d ∈ extrudeGo cs cb filled forceLine l k →
      ∃ k' kd, d = Decl.extrude k' kd := by
  intro l
  induction l with
  | nil => intro k d hd; exact absurd hd (List.not_mem_nil d)
  | cons i rest ih =>
      intro k d hd
      rw [extrudeGo] at hd
      split at hd
      · rcases List.mem_cons.mp hd with h | h
        · exact ⟨_, _, h⟩
        · exact ih _ d h
      · exact ih _ d hd

theorem mem_enumFrom_snd {α : Type} :
    ∀ (l : List α) (n : Nat) (x : Nat × α), x ∈ List.enumFrom n l → x.2 ∈ l := by
  intro l
  induction l with
  | nil => intro n x hx; exact absurd hx (List.not_mem_nil x)
  | cons a t ih =>
      intro n x hx
      rcases List.mem_cons.mp hx with h | h
      · subst h; exact List.mem_cons_self _ _
      · exact List.mem_cons_of_mem _ (ih (n + 1) x h)

theorem subPts_mem (path : List Subpath) (k : Nat) (p : Pt)
    (hp : p ∈ subPts path k) : p ∈ (path.map Prod.fst).flatten := by
  by_cases hk : k < path.length
  · refine List.mem_flatten.mpr ⟨subPts path k, ?_, hp⟩
    have hmem : path.getD k dummySub ∈ path := by
      rw [List.getD_eq_getElem?_getD, List.getElem?_eq_getElem hk]
      exact List.getElem_mem _
    exact List.mem_map_of_mem Prod.fst hmem
  · exfalso
    have hnil : subPts path k = [] := by
      unfold subPts
      rw [List.getD_eq_getElem?_getD, List.getElem?_eq_none (le_of_not_lt hk)]
      rfl
    rw [hnil] at hp
    exact absurd hp (List.not_mem_nil p)

theorem declsFor_points_src (path : List Subpath) (cs : List (List Nat)) (cx cy : ℚ)
    (k i k' : Nat) (qs : List Pt) (h : Decl.points k' qs ∈ declsFor path cs cx cy k i) :
    ∀ q ∈ qs, ∃ p, (p ∈ subPts path i ∨ ∃ j ∈ cs.getD i [], p ∈ subPts path j) ∧
      q = shiftPt cx cy p := by
  intro q hq
  simp only [declsFor] at h
  split at h
  · rcases List.mem_cons.mp h with h1 | h1
    · exact absurd h1 (by simp)
    · have h2 := List.mem_singleton.mp h1
      have hqs : qs = (subPts path i).map (shiftPt cx cy) := by
        injection h2 with _ h3
      rw [hqs] at hq
      obtain ⟨p, hp, hpq⟩ := List.mem_map.mp hq
      exact ⟨p, Or.inl hp, hpq.symm⟩
  · rcases List.mem_cons.mp h with h1 | h1
    · exact absurd h1 (by simp)
    · rcases List.mem_cons.mp h1 with h2 | h2
      · have hqs : qs =
            ((subPts path i) ++ (cs.getD i []).flatMap (subPts path)).map
              (shiftPt cx cy) := by
          injection h2 with _ h3
        rw [hqs] at hq
        obtain ⟨p, hp, hpq⟩ := List.mem_map.mp hq
        rcases List.mem_append.mp hp with hp1 | hp1
        · exact ⟨p, Or.inl hp1, hpq.symm⟩
        · obtain ⟨j, hj, hpj⟩ := List.mem_flatMap.mp hp1
          exact ⟨p, Or.inr ⟨j, hj, hpj⟩, hpq.symm⟩
      · have h3 := List.mem_singleton.mp h2
        exact absurd h3 (by simp)

theorem convertPathDecls_points_src (e : PathEntry) (forceLine : Bool) (cx cy : ℚ)
    (l : List Decl) (h : convertPathDecls e forceLine cx cy = some l)
    (k : Nat) (qs : List Pt) (hd : Decl.points k qs ∈ l) :
    ∀ q ∈ qs, ∃ p ∈ entryPts e, q = shiftPt cx cy p := by
  intro q hq
  unfold convertPathDecls at h
  split at h
  · cases Option.some.inj h
    exact absurd hd (List.not_mem_nil _)
  · split at h
    · exact absurd h (by simp)
    · dsimp only at h
      split at h
      · cases Option.some.inj h
        exact absurd hd (List.not_mem_nil _)
      · cases Option.some.inj h
        rcases List.mem_append.mp hd with hdl | hdr
        · rw [pointsGo_eq] at hdl
          obtain ⟨pr, hpr, hin⟩ := List.mem_flatMap.mp hdl
          obtain ⟨p, hsrc, hpq⟩ :=
            declsFor_points_src e.subpaths _ cx cy pr.1 pr.2 k qs hin q hq
          refine ⟨p, ?_, hpq⟩
          rcases hsrc with hp1 | ⟨j, _, hpj⟩
          · exact subPts_mem e.subpaths pr.2 p hp1
          · exact subPts_mem e.subpaths j p hpj
        · obtain ⟨k', kd, habs⟩ := extrudeGo_shape _ _ _ _ _ _ _ hdr
          exact absurd habs (by simp)

/-- C5: the centering offsets are derived from the drawing-wide bounding
box accumulated by the *whole* traversal (every visible element's points
contribute), and every coordinate in an emitted point list equals an
original visible coordinate minus `((xmin+xmax)/2, (ymin+ymax)/2)`, where
the bounds are the min/max over all visible points (seeded with the
source's `1.0E70` sentinels). -/
theorem effect_centering (root : SNodeList) (forceLine : Bool) (st : TState)
    (ds : List Decl) (h : effectModel root forceLine = some (st, ds)) :
    ∀ (k : Nat) (qs : List Pt), Decl.points k qs ∈ ds → ∀ q ∈ qs,
      ∃ p ∈ visPtsList ("visible") root,
        q = (p.1 - (xminOf (visPtsList ("visible") root) +
              xmaxOf (visPtsList ("visible") root)) / 2,
             p.2 - (yminOf (visPtsList ("visible") root) +
              ymaxOf (visPtsList ("visible") root)) / 2) := by
  intro k qs hdecl q hq
  unfold effectModel at h
  dsimp only at h
  set V := visPtsList ("visible") root with hV
  set st0 := traverseList initState ("visible") root with hst0
  set cx := st0.g.xmin + (st0.g.xmax - st0.g.xmin) / 2 with hcxdef
  set cy := st0.g.ymin + (st0.g.ymax - st0.g.ymin) / 2 with hcydef
  cases hemit : emitAll forceLine cx cy st0.paths with
  | none => rw [hemit] at h; exact absurd h (by simp)
  | some ds' =>
      rw [hemit] at h
      have hpair := Option.some.inj h
      have hds : ds' = ds := congrArg Prod.snd hpair
      rw [hds] at hemit
      have hchar := traverseList_char root initState ("visible")
      have hg : st0.g = gMins initState.g V := hchar.1
      have hpaths : st0.paths = pathEntriesList ("visible") root := by
        have h2 := hchar.2
        rw [hst0]
        rw [h2]
        simp [initState]
      have hxmin : st0.g.xmin = xminOf V := by
        rw [hg]; simp [gMins, xminOf, initState]
      have hxmax : st0.g.xmax = xmaxOf V := by
        rw [hg]; simp [gMins, xmaxOf, initState]
      have hymin : st0.g.ymin = yminOf V := by
        rw [hg]; simp [gMins, yminOf, initState]
      have hymax : st0.g.ymax = ymaxOf V := by
        rw [hg]; simp [gMins, ymaxOf, initState]
      have hcx : cx = (xminOf V + xmaxOf V) / 2 := by
        rw [hcxdef, hxmin, hxmax]; ring
      have hcy : cy = (yminOf V + ymaxOf V) / 2 := by
        rw [hcydef, hymin, hymax]; ring
      obtain ⟨e, he, l, hl, hdl⟩ :=
        emitAll_mem forceLine cx cy st0.paths ds hemit _ hdecl
      obtain ⟨p, hp, hqp⟩ :=
        convertPathDecls_points_src e forceLine cx cy l hl k qs hdl q hq
      refine ⟨p, ?_, ?_⟩
      · refine pathEntriesList_pts root ("visible") e ?_ p hp
        rw [← hpaths]
        exact he
      · rw [hqp]
        simp only [shiftPt, hcx, hcy]

/-- Witness for C5: the single-element document `rootW`; the emitted
point `(0 - cxW, 2 - cyW)` is the first original point shifted by the
global center. -/
theorem effect_centering_witness :
    ∃ p ∈ visPtsList ("visible") rootW,
      ((0 : ℚ) - cxW, (2 : ℚ) - cyW) =
        (p.1 - (xminOf (visPtsList ("visible") rootW) +
            xmaxOf (visPtsList ("visible") rootW)) / 2,
         p.2 - (yminOf (visPtsList ("visible") rootW) +
            ymaxOf (visPtsList ("visible") rootW)) / 2) :=
  effect_centering rootW false stW dsW rfl 0 qsW
    (by
      have hshape : dsW =
          [Decl.center 0 cW, Decl.points 0 qsW, Decl.extrude 0 ExtrudeKind.linear] := rfl
      rw [hshape]
      exact List.mem_cons_of_mem _ (List.mem_cons_self _ _))
    ((0 : ℚ) - cxW, (2 : ℚ) - cyW) (List.mem_cons_self _ _)

/-- C9 counterexample: a document with two elements of the same
unsupported kind receives the unable-to-draw warning twice — the final
`else` branch of the traversal is not gated by the warnings dictionary,
so unsupported-kind warnings are per occurrence, not once per kind. -/
theorem unsupported_warning_twice_counterexample :
    (traverseList initState ("visible") docUnknown2).msgs =
        [Msg.unknownObject ("foo"), Msg.unknownObject ("foo")] ∧
      (traverseList initState ("visible") docUnknown2).msgs.count
        (Msg.unknownObject ("foo")) = 2 := by
  constructor <;> rfl

theorem getPathVerticesModel_msgs (st : TState) (d : NodeData) :
    (getPathVerticesModel st d).msgs = st.msgs ∧
      (getPathVerticesModel st d).warnKeys = st.warnKeys := by
  simp only [getPathVerticesModel]
  split <;> exact ⟨rfl, rfl⟩

mutual
theorem traverseNode_imageInv (n : SNode) :
    ∀ (st : TState) (pv : String), imageInv st → imageInv (traverseNode st pv n) := by
  match n with
  | .mk d children =>
      intro st pv hinv
      cases d with
      | mk tag vis style content texts fn sn =>
          simp only [traverseNode]
          split
          · exact hinv
          · split
            · exact hinv
            · cases tag with
              | g => exact traverseList_imageInv children st _ hinv
              | path =>
                  have hm := getPathVerticesModel_msgs st
                    ⟨Tag.path, vis, style, content, texts, fn, sn⟩
                  unfold imageInv
                  rw [hm.1, hm.2]
                  exact hinv
              | image =>
                  dsimp only
                  split
                  · exact hinv
                  · rename_i hc
                    unfold imageInv at hinv ⊢
                    simp only [List.count_append]
                    have h0 : st.msgs.count Msg.imageWarn = 0 := by
                      have hb : st.warnKeys.contains ("image") = false :=
                        Bool.eq_false_iff.mpr hc
                      rw [hb] at hinv
                      simpa using hinv
                    have hc2 : (st.warnKeys ++ ["image"]).contains ("image") = true := by
                      have : ("image" : String) ∈ st.warnKeys ++ ["image"] :=
                        List.mem_append_right _ (List.mem_singleton.mpr rfl)
                      exact List.elem_eq_true_of_mem this
                    rw [hc2, h0]
                    simp
              | text =>
                  dsimp only
                  split
                  · exact hinv
                  · unfold imageInv at hinv ⊢
                    simp only [List.count_append]
                    have h0 : ([Msg.textContent texts, Msg.textHint].count Msg.imageWarn) = 0 :=
                      List.count_eq_zero.mpr (by simp)
                    rw [h0]
                    simpa using hinv
              | unknown name =>
                  dsimp only
                  unfold imageInv at hinv ⊢
                  simp only [List.count_append]
                  have h0 : ([Msg.unknownObject name].count Msg.imageWarn) = 0 :=
                    List.count_eq_zero.mpr (by simp)
                  rw [h0]
                  simpa using hinv
              | ignorable => exact hinv

theorem traverseList_imageInv (ns : SNodeList) :
    ∀ (st : TState) (pv : String), imageInv st → imageInv (traverseList st pv ns) := by
  match ns with
  | .nil => intro st pv hinv; exact hinv
  | .cons n rest =>
      intro st pv hinv
      exact traverseList_imageInv rest _ pv (traverseNode_imageInv n st pv hinv)
end

/-- C9 amended: elements of unsupported kinds are skipped without
aborting the traversal — they contribute no paths and leave the running
bounding box untouched — and the bitmap-image warning is emitted at most
once per document (gated by the warnings dictionary); warnings for text
and for other unsupported tags, however, are emitted once per occurrence
(see the counterexample). -/
theorem unsupported_skipped_image_warn_once :
    (∀ root : SNodeList,
      (traverseList initState ("visible") root).msgs.count Msg.imageWarn ≤ 1) ∧
    (∀ (st : TState) (v : String) (d : NodeData) (ch : SNodeList),
      (d.tag = Tag.image ∨ d.tag = Tag.text ∨ (∃ name, d.tag = Tag.unknown name)) →
      (traverseNode st v (.mk d ch)).paths = st.paths ∧
        (traverseNode st v (.mk d ch)).g = st.g) := by
  constructor
  · intro root
    have h0 : imageInv initState := by
      unfold imageInv
      simp [initState]
    have h1 := traverseList_imageInv root initState ("visible") h0
    unfold imageInv at h1
    refine le_trans h1 ?_
    split <;> simp
  · intro st v d ch htag
    obtain ⟨tag, vis, style, content, texts, fn, sn⟩ := d
    simp only [traverseNode]
    split
    · exact ⟨rfl, rfl⟩
    · split
      · exact ⟨rfl, rfl⟩
      · simp only at htag
        rcases htag with h | h | ⟨nm, h⟩ <;> subst h
        · dsimp only
          split <;> exact ⟨rfl, rfl⟩
        · dsimp only
          split <;> exact ⟨rfl, rfl⟩
        · exact ⟨rfl, rfl⟩

/-- Witness for the amended C9: a concrete document (two unsupported
elements) keeps at most one image warning, and a concrete unsupported
element leaves paths and bounding box untouched. -/
theorem unsupported_skipped_image_warn_once_witness :
    (traverseList initState ("visible") docUnknown2).msgs.count Msg.imageWarn ≤ 1 ∧
      (traverseNode initState ("visible") unknownNodeW).paths = initState.paths :=
  ⟨unsupported_skipped_image_warn_once.1 docUnknown2,
    (unsupported_skipped_image_warn_once.2 initState ("visible") _ _
      (Or.inr (Or.inr ⟨"foo", rfl⟩))).1⟩

theorem traverseNode_skipped (st : TState) (v : String) (n : SNode)
    (h : isSkipped v n = true) : traverseNode st v n = st := by
  match n with
  | .mk d ch =>
      simp only [isSkipped, Bool.or_eq_true, beq_iff_eq] at h
      simp only [traverseNode]
      by_cases h1 : (effVis d v == "hidden" || effVis d v == "collapse") = true
      · rw [if_pos h1]
      · rw [if_neg h1]
        have h2 : (styleStr d == "display:none") = true := by
          simp only [Bool.or_eq_true, beq_iff_eq] at h1
          push_neg at h1
          cases h with
          | inl hab =>
              cases hab with
              | inl hh => exact absurd hh h1.1
              | inr hh => exact absurd hh h1.2
          | inr hh => exact beq_iff_eq.mpr hh
        rw [if_pos h2]

theorem traverseList_skip (v : String) (n : SNode) (h : isSkipped v n = true) :
    ∀ (pre : SNodeList) (st : TState) (post : SNodeList),
      traverseList st v (pre.append (.cons n post)) =
        traverseList st v (pre.append post)
  | .nil, st, post => by
      simp only [SNodeList.append, traverseList]
      rw [traverseNode_skipped st v n h]
  | .cons m rest, st, post => by
      simp only [SNodeList.append, traverseList]
      exact traverseList_skip v n h rest (traverseNode st v m) post

/-- C10: a node whose effective visibility resolves to `hidden` or
`collapse`, or whose style attribute is exactly `display:none`, is
skipped entirely together with its descendants: removing it from its
sibling list leaves the traversal state (paths, bounding box, warnings)
— and hence the whole emitted program — unchanged.  A style merely
*containing* `display:none` among other properties does not trigger the
skip: such a node is dispatched normally. -/
theorem hidden_or_display_none_skipped :
    (∀ (st : TState) (v : String) (pre post : SNodeList) (n : SNode),
      isSkipped v n = true →
      traverseList st v (pre.append (.cons n post)) =
        traverseList st v (pre.append post)) ∧
    (∀ (forceLine : Bool) (pre post : SNodeList) (n : SNode),
      isSkipped ("visible") n = true →
      effectModel (pre.append (.cons n post)) forceLine =
        effectModel (pre.append post) forceLine) ∧
    (∀ (st : TState) (v : String) (d : NodeData) (ch : SNodeList) (extra : String),
      d.style = some ("display:none;" ++ extra) →
      effVis d v ≠ "hidden" → effVis d v ≠ "collapse" →
      isSkipped v (.mk d ch) = false ∧
      traverseNode st v (.mk d ch) = traverseDispatch st (effVis d v) d ch) := by
  refine ⟨?_, ?_, ?_⟩
  · intro st v pre post n h
    exact traverseList_skip v n h pre st post
  · intro forceLine pre post n h
    unfold effectModel
    rw [traverseList_skip ("visible") n h pre initState post]
  · intro st v d ch extra hstyle hv1 hv2
    have hsne : styleStr d ≠ "display:none" := by
      unfold styleStr
      rw [hstyle, Option.getD_some]
      intro heq
      have hlen := congrArg String.length heq
      rw [String.length_append] at hlen
      have h13 : ("display:none;" : String).length = 13 := rfl
      have h12 : ("display:none" : String).length = 12 := rfl
      rw [h13, h12] at hlen
      omega
    have hb1 : (effVis d v == "hidden") = false := beq_eq_false_iff_ne.mpr hv1
    have hb2 : (effVis d v == "collapse") = false := beq_eq_false_iff_ne.mpr hv2
    have hb3 : (styleStr d == "display:none") = false := beq_eq_false_iff_ne.mpr hsne
    constructor
    · simp [isSkipped, hb1, hb2, hb3]
    · simp only [traverseNode, hb1, hb2, hb3, Bool.or_self, Bool.false_eq_true,
        if_false]
      rfl

/-- Witness for C10: a hidden group (with a path child) contributes
nothing to the traversal, and a path node styled
`display:none;fill:red` is not skipped. -/
theorem hidden_or_display_none_skipped_witness :
    traverseList initState ("visible")
        (SNodeList.cons hiddenNodeW (SNodeList.cons pathNodeW SNodeList.nil)) =
      traverseList initState ("visible") (SNodeList.cons pathNodeW SNodeList.nil) ∧
    isSkipped ("visible") (.mk styledNodeW SNodeList.nil) = false :=
  ⟨hidden_or_display_none_skipped.1 initState ("visible") SNodeList.nil
      (SNodeList.cons pathNodeW SNodeList.nil) hiddenNodeW (by rfl),
    (hidden_or_display_none_skipped.2.2 initState ("visible") styledNodeW
      SNodeList.nil ("fill:red") rfl (by decide) (by decide)).1⟩

end P2S
